import Mathlib

/-!
Shallow embedding of `src/speedup.py` (repository plekiko/speedup).

Modelling conventions:
* Python binary floats are modelled as rationals (`ℚ`).  Every arithmetic
  operation the embedded code performs on its floats (division by `2.0`,
  division by `0.5`, multiplication by `60` and `3600`, addition,
  subtraction, division by the user speed) is exact in `ℚ`; the only
  rounding step in the source, the `:.6f` formatting of the residual tempo
  factor, is modelled explicitly by `round6`.
* `die(msg)` (print to stderr and `sys.exit(code)`, default code `1`) is
  modelled as an `Except` error value carrying the message and the exit
  code; a function that can call `die` returns `Except Die α`.
* Time strings given to `parse_hms` are modelled at the granularity of
  their colon-separated components: each component is either a component
  that Python `float()` accepts, carrying its (finite) value, or an
  invalid component.
* The ffmpeg filter-graph strings built by `build_ffmpeg_cmd` are modelled
  structurally: each interpolated value of the f-string becomes a field of
  a segment record, and the list order of segments is the order in which
  the `concat` filter receives them.
-/

/-- Exit message together with exit code, as passed to `die` in the source. -/
abbrev Die := String × ℕ

/-- `die(msg)` from `speedup.py` line 11: fixed exit code 1. -/
def die (msg : String) : Die := (msg, 1)

/-- One colon-separated component of a time string: either a component the
Python `float()` constructor accepts (with its rational value) or an
invalid component. -/
inductive Tok where
  | num (q : ℚ)
  | bad
deriving DecidableEq

/-- Value of a component, `none` when `float()` raises `ValueError`. -/
def tokVal : Tok → Option ℚ
  | .num q => some q
  | .bad => none

/-- The list comprehension `[float(p) for p in parts]` of `speedup.py`
line 25: all component values, or `none` as soon as one conversion
raises. -/
def floatList : List Tok → Option (List ℚ)
  | [] => some []
  | t :: ts =>
    match tokVal t with
    | none => none
    | some v =>
      match floatList ts with
      | none => none
      | some vs => some (v :: vs)

/-- `parse_hms` from `speedup.py` lines 15-38: split on `":"` (the input
here is already the list of components), convert every component with
`float` (a single failure dies), then dispatch on the number of
components; more than three components dies.  The Python error message
also interpolates the offending input string. -/
def parse_hms (parts : List Tok) : Except Die ℚ :=
  match floatList parts with
  | none => .error (die ("Invalid time format"))
  | some [s] => .ok s
  | some [m, s] => .ok (m * 60 + s)
  | some [h, m, s] => .ok (h * 3600 + m * 60 + s)
  | some _ => .error (die ("Invalid time format"))

/-- Python `int()` on a float: truncation toward zero. -/
def pyInt (t : ℚ) : ℤ := if t < 0 then ⌈t⌉ else ⌊t⌋

/-- `fmt_time` from `speedup.py` lines 40-44: clamp `int(seconds)` at 0,
then `divmod` by 3600 and 60; emit `H:MM:SS` when the hour field is
nonzero, else `M:SS`.  The result is modelled as the list of components
the emitted string splits into (each rendered decimal integer reparses to
its own value). -/
def fmt_time (t : ℚ) : List Tok :=
  let secs : ℕ := (max 0 (pyInt t)).toNat
  let h : ℕ := secs / 3600
  let rem : ℕ := secs % 3600
  let m : ℕ := rem / 60
  let s : ℕ := rem % 60
  if h ≠ 0 then [.num h, .num m, .num s] else [.num m, .num s]

/-- Halving a rational greater than 1 strictly decreases the ceiling
(taken as a natural number); the termination measure of both `atempo`
loops. -/
def ceilHalfToNatLt (x : ℚ) (hx : 1 < x) :
    (⌈x / 2⌉).toNat < (⌈x⌉).toNat := by
  have hc2 : (2 : ℤ) ≤ ⌈x⌉ := by
    have := Int.lt_ceil.mpr (by exact_mod_cast hx : ((1 : ℤ) : ℚ) < x)
    omega
  have hle : ⌈x / 2⌉ ≤ ⌈x⌉ - 1 := by
    rw [Int.ceil_le]
    have hxc : x ≤ (⌈x⌉ : ℚ) := Int.le_ceil x
    have h2 : ((⌈x⌉ : ℚ)) / 2 ≤ (⌈x⌉ : ℚ) - 1 := by
      have : (2 : ℚ) ≤ (⌈x⌉ : ℚ) := by exact_mod_cast hc2
      linarith
    have : x / 2 ≤ ((⌈x⌉ : ℚ)) / 2 := by linarith
    push_cast
    linarith
  omega

/-- First loop of `atempo_chain` (`speedup.py` lines 54-56): while the
remaining factor exceeds 2.0, emit a factor 2.0 and halve the remainder.
Returns the emitted factors and the final remainder. -/
def halveLoop (remaining : ℚ) : List ℚ × ℚ :=
  if h : remaining > 2 then
    let p := halveLoop (remaining / 2)
    (2 :: p.1, p.2)
  else
    ([], remaining)
termination_by (⌈remaining⌉).toNat
decreasing_by
  exact ceilHalfToNatLt remaining (lt_trans one_lt_two h)

/-- The remainder left by the halving loop stays positive. -/
def halveLoopSndPos {r : ℚ} (h : 0 < r) : 0 < (halveLoop r).2 := by
  induction r using halveLoop.induct with
  | case1 r hr ih =>
    rw [halveLoop, dif_pos hr]
    exact ih (by linarith)
  | case2 r hr =>
    rw [halveLoop, dif_neg hr]
    exact h

/-- Second loop of `atempo_chain` (`speedup.py` lines 57-59): while the
remaining factor is below 0.5, emit a factor 0.5 and divide the remainder
by 0.5 (i.e. double it).  The loop is only reachable with a positive
remainder (a non-positive speed dies first at line 48), which is the
hypothesis making it terminate. -/
def doubleLoop (remaining : ℚ) (hpos : 0 < remaining) : List ℚ × ℚ :=
  if h : remaining < 1/2 then
    let p := doubleLoop (remaining / (1/2)) (by positivity)
    ((1/2) :: p.1, p.2)
  else
    ([], remaining)
termination_by (⌈1 / remaining⌉).toNat
decreasing_by
  have hrw : (1 : ℚ) / (remaining / (1/2)) = (1 / remaining) / 2 := by
    rw [div_div]
    congr 1
    ring
  rw [hrw]
  exact ceilHalfToNatLt (1 / remaining)
    (one_lt_one_div hpos (lt_trans h (by norm_num)))

/-- Rounding to six decimal places, the `f"atempo={remaining:.6f}"`
formatting of the residual factor in `speedup.py` line 61 (ties may be
resolved differently by Python, which rounds the binary float half to
even; both roundings stay within half an ulp, i.e. `1/2000000`). -/
def round6 (q : ℚ) : ℚ := (round (q * 1000000) : ℤ) / 1000000

/-- `atempo_chain` from `speedup.py` lines 47-62: die on non-positive
speed, halve while above 2.0, double while below 0.5, then append the
residual factor rounded by the `:.6f` formatting.  The returned list holds
the numeric factor of each `atempo=<factor>` element of the
comma-joined filter string, in order. -/
def atempo_chain (speed : ℚ) : Except Die (List ℚ) :=
  if h : speed ≤ 0 then
    .error (die ("Speed must be > 0"))
  else
    let p1 := halveLoop speed
    let p2 := doubleLoop p1.2 (halveLoopSndPos (lt_of_not_le h))
    .ok (p1.1 ++ p2.1 ++ [round6 p2.2])

/-- One branch of the partial-mode video filter graph
(`speedup.py` lines 234-241).  `trimEnd = none` models `trim={e}` with no
upper bound; `setptsDiv = none` models `setpts=PTS-STARTPTS` (no time
scaling) and `setptsDiv = some v` models `setpts=(PTS-STARTPTS)/v`;
`fpsChain` lists the `fps=` filters applied in order. -/
structure VideoSeg where
  trimStart : ℚ
  trimEnd : Option ℚ
  setptsDiv : Option ℚ
  fpsChain : List ℤ
deriving DecidableEq

/-- One branch of the partial-mode audio filter graph
(`speedup.py` lines 248-255): either an `atrim` of the input audio
(`trimEnd = none` models `atrim={e}` with no upper bound) or a generated
`anullsrc` silence trimmed to the given duration. -/
inductive AudioSeg where
  | trimmed (trimStart : ℚ) (trimEnd : Option ℚ)
  | silence (duration : ℚ)
deriving DecidableEq

/-- The three video branches of the partial-mode filter graph, in the
order the `concat=n=3` filter receives them. -/
def vfSegments (s e speed : ℚ) (fpsNormal fpsFast : ℤ) : List VideoSeg :=
  [ ⟨0, some s, none, [fpsNormal]⟩,
    ⟨s, some e, some speed, [fpsFast, fpsNormal]⟩,
    ⟨e, none, none, [fpsNormal]⟩ ]

/-- The three audio branches of the partial-mode filter graph, in the
order the `concat=n=3` filter receives them. -/
def afSegments (s e speed : ℚ) : List AudioSeg :=
  [ .trimmed 0 (some s),
    .silence ((e - s) / speed),
    .trimmed e none ]

/-- The stream-processing part of the built command: either the
partial-mode filter graph (video branches, and audio branches unless
`-an` was chosen) or the whole-file filters `setpts=PTS/{speed}`,
`fps={fps_fast}` and, when audio is kept, the atempo chain factors. -/
inductive StreamCmd where
  | splitCmd (vf : List VideoSeg) (af : Option (List AudioSeg))
  | wholeCmd (setptsDiv : ℚ) (fps : ℤ) (audio : Option (List ℚ))
deriving DecidableEq

/-- The built ffmpeg command, keeping the claim-relevant parts: filter
graph plus the encoder quality options passed through unchanged. -/
structure FfmpegCmd where
  stream : StreamCmd
  crf : ℤ
  preset : String
deriving DecidableEq

/-- `build_ffmpeg_cmd` from `speedup.py` lines 198-291.  `in_dur` is the
probed source duration (the `ffprobe_duration_seconds` result), and the
subprocess-invocation boilerplate (`-y`, `-progress`, codec flags, paths)
is constant and omitted.  Partial mode is entered when a start or an end
is given; `start or 0.0` and the `end if end is not None else in_dur`
defaults, the `e <= s` rejection, the expected-duration formulas and the
filter graphs follow the source line by line. -/
def build_ffmpeg_cmd (input_name : String) (in_dur speed : ℚ)
    (fps_normal fps_fast : ℤ) (no_audio : Bool) (crf : ℤ) (preset : String)
    (start? end? : Option ℚ) : Except Die (FfmpegCmd × ℚ) :=
  if start?.isSome || end?.isSome then
    let s := start?.getD 0
    let e := end?.getD in_dur
    if e ≤ s then
      .error (die (input_name ++ ": --end must be greater than --start"))
    else
      let seg := e - s
      let expected := s + (seg / speed) + (in_dur - e)
      let vf := vfSegments s e speed fps_normal fps_fast
      let af := if no_audio then none else some (afSegments s e speed)
      .ok (⟨.splitCmd vf af, crf, preset⟩, expected)
  else
    let expected := in_dur / speed
    if no_audio then
      .ok (⟨.wholeCmd speed fps_fast none, crf, preset⟩, expected)
    else
      (atempo_chain speed).map fun ch =>
        (⟨.wholeCmd speed fps_fast (some ch), crf, preset⟩, expected)

/-- The speed guard of `main` (`speedup.py` lines 336-337), executed
before any probing or command building. -/
def main_speed_check (speed : ℚ) : Except Die Unit :=
  if speed ≤ 0 then .error (die ("Speed must be > 0")) else .ok ()

/-! ### Properties of the tempo-chain loops -/

theorem halveLoop_of_le {r : ℚ} (h : ¬ r > 2) : halveLoop r = ([], r) := by
  rw [halveLoop, dif_neg h]

theorem doubleLoop_of_ge {r : ℚ} (hpos : 0 < r) (h : ¬ r < 1/2) :
    doubleLoop r hpos = ([], r) := by
  rw [doubleLoop, dif_neg h]

theorem halveLoop_prod (r : ℚ) : (halveLoop r).1.prod * (halveLoop r).2 = r := by
  induction r using halveLoop.induct with
  | case1 r hr ih =>
    rw [halveLoop, dif_pos hr]
    simp only [List.prod_cons]
    rw [mul_assoc, ih]
    ring
  | case2 r hr =>
    rw [halveLoop, dif_neg hr]
    simp

theorem halveLoop_mem (r : ℚ) : ∀ f ∈ (halveLoop r).1, f = (2 : ℚ) := by
  induction r using halveLoop.induct with
  | case1 r hr ih =>
    rw [halveLoop, dif_pos hr]
    intro f hf
    rcases List.mem_cons.mp hf with h2 | h2
    · exact h2
    · exact ih f h2
  | case2 r hr =>
    rw [halveLoop, dif_neg hr]
    intro f hf
    simp at hf

theorem halveLoop_snd_of_gt {r : ℚ} (h : 2 < r) :
    1 < (halveLoop r).2 ∧ (halveLoop r).2 ≤ 2 := by
  induction r using halveLoop.induct with
  | case1 r hr ih =>
    rw [halveLoop, dif_pos hr]
    by_cases h2 : 2 < r / 2
    · exact ih h2
    · rw [halveLoop_of_le h2]
      exact ⟨by linarith, by linarith [not_lt.mp h2]⟩
  | case2 r hr =>
    exact absurd h hr

theorem halveLoop_snd_le_two {r : ℚ} (h : r ≤ 2) : (halveLoop r).2 = r := by
  rw [halveLoop_of_le (not_lt.mpr h)]

theorem doubleLoop_prod (r : ℚ) (hpos : 0 < r) :
    (doubleLoop r hpos).1.prod * (doubleLoop r hpos).2 = r := by
  induction r, hpos using doubleLoop.induct with
  | case1 r hpos hr ih =>
    rw [doubleLoop, dif_pos hr]
    simp only [List.prod_cons]
    rw [mul_assoc, ih]
    ring
  | case2 r hpos hr =>
    rw [doubleLoop, dif_neg hr]
    simp

theorem doubleLoop_mem (r : ℚ) (hpos : 0 < r) :
    ∀ f ∈ (doubleLoop r hpos).1, f = (1/2 : ℚ) := by
  induction r, hpos using doubleLoop.induct with
  | case1 r hpos hr ih =>
    rw [doubleLoop, dif_pos hr]
    intro f hf
    rcases List.mem_cons.mp hf with h2 | h2
    · exact h2
    · exact ih f h2
  | case2 r hpos hr =>
    rw [doubleLoop, dif_neg hr]
    intro f hf
    simp at hf

theorem doubleLoop_snd_ge (r : ℚ) (hpos : 0 < r) :
    1/2 ≤ (doubleLoop r hpos).2 := by
  induction r, hpos using doubleLoop.induct with
  | case1 r hpos hr ih =>
    rw [doubleLoop, dif_pos hr]
    exact ih
  | case2 r hpos hr =>
    rw [doubleLoop, dif_neg hr]
    exact not_lt.mp hr

theorem doubleLoop_snd_le (r : ℚ) (hpos : 0 < r) (h : r ≤ 2) :
    (doubleLoop r hpos).2 ≤ 2 := by
  induction r, hpos using doubleLoop.induct with
  | case1 r hpos hr ih =>
    rw [doubleLoop, dif_pos hr]
    exact ih (by linarith)
  | case2 r hpos hr =>
    rw [doubleLoop, dif_neg hr]
    exact h

/-! ### Properties of six-decimal rounding -/

theorem round6_mono {a b : ℚ} (h : a ≤ b) : round6 a ≤ round6 b := by
  unfold round6
  have h1 : round (a * 1000000) ≤ round (b * 1000000) := by
    rw [round_eq, round_eq]
    exact Int.floor_le_floor (by linarith)
  have h2 : ((round (a * 1000000) : ℤ) : ℚ) ≤ ((round (b * 1000000) : ℤ) : ℚ) := by
    exact_mod_cast h1
  linarith

theorem round6_half : round6 (1/2) = 1/2 := by
  unfold round6
  have h : ((1 : ℚ)/2) * 1000000 = ((500000 : ℤ) : ℚ) := by norm_num
  rw [h, round_intCast]
  norm_num

theorem round6_two : round6 2 = 2 := by
  unfold round6
  have h : (2 : ℚ) * 1000000 = ((2000000 : ℤ) : ℚ) := by norm_num
  rw [h, round_intCast]
  norm_num

theorem round6_abs (q : ℚ) : |round6 q - q| ≤ 1/2000000 := by
  unfold round6
  have h := abs_sub_round (q * 1000000)
  rw [abs_sub_comm] at h
  have h2 : (round (q * 1000000) : ℚ)/1000000 - q
      = ((round (q * 1000000) : ℚ) - q * 1000000)/1000000 := by ring
  rw [h2, abs_div, abs_of_pos (by norm_num : (0:ℚ) < 1000000)]
  linarith

/-! ### Claim theorems: the atempo chain -/

/-- C1: for every speed `s` in `(0, 4]`, `atempo_chain s` succeeds, every
factor of the chain (the `2.0` factors of the halving loop, the `0.5`
factors of the doubling loop, and the rounded residual) lies in
`[0.5, 2.0]`, and the product of the factors equals `s` up to the
six-decimal rounding of the residual: the unrounded factors multiply
exactly to `s` and the rounding moves the residual by at most
`1/2000000`. -/
theorem atempo_chain_range_and_prod (s : ℚ) (h0 : 0 < s) (h4 : s ≤ 4) :
    ∃ fs r, atempo_chain s = .ok (fs ++ [round6 r]) ∧
      (∀ f ∈ fs ++ [round6 r], 1/2 ≤ f ∧ f ≤ 2) ∧
      fs.prod * r = s ∧ |round6 r - r| ≤ 1/2000000 := by
  have hns : ¬ s ≤ 0 := not_le.mpr h0
  have hpos1 : 0 < (halveLoop s).2 := halveLoopSndPos h0
  have hle2 : (halveLoop s).2 ≤ 2 := by
    by_cases hgt : 2 < s
    · exact (halveLoop_snd_of_gt hgt).2
    · rw [halveLoop_snd_le_two (not_lt.mp hgt)]
      exact not_lt.mp hgt
  refine ⟨(halveLoop s).1 ++ (doubleLoop (halveLoop s).2 hpos1).1,
      (doubleLoop (halveLoop s).2 hpos1).2, ?_, ?_, ?_, round6_abs _⟩
  · unfold atempo_chain
    rw [dif_neg hns]
  · intro f hf
    rcases List.mem_append.mp hf with hf1 | hf2
    · rcases List.mem_append.mp hf1 with ha | hb
      · rw [halveLoop_mem s f ha]
        norm_num
      · rw [doubleLoop_mem _ _ f hb]
        norm_num
    · rw [List.mem_singleton] at hf2
      subst hf2
      constructor
      · calc (1:ℚ)/2 = round6 (1/2) := round6_half.symm
          _ ≤ _ := round6_mono (doubleLoop_snd_ge (halveLoop s).2 hpos1)
      · calc round6 (doubleLoop (halveLoop s).2 hpos1).2
            ≤ round6 2 := round6_mono (doubleLoop_snd_le (halveLoop s).2 hpos1 hle2)
          _ = 2 := round6_two
  · rw [List.prod_append, mul_assoc, doubleLoop_prod, halveLoop_prod]

/-- Witness for `atempo_chain_range_and_prod` at the concrete speed 3. -/
theorem atempo_chain_range_and_prod_witness :
    ((0:ℚ) < 3 ∧ (3:ℚ) ≤ 4) ∧
    (∃ fs r, atempo_chain 3 = .ok (fs ++ [round6 r]) ∧
      (∀ f ∈ fs ++ [round6 r], 1/2 ≤ f ∧ f ≤ 2) ∧
      fs.prod * r = 3 ∧ |round6 r - r| ≤ 1/2000000) :=
  ⟨⟨by norm_num, by norm_num⟩,
    atempo_chain_range_and_prod 3 (by norm_num) (by norm_num)⟩

/-- C9: for every positive speed both loops of `atempo_chain` run a finite
number of iterations (the chain is a finite list: finitely many `2.0`
factors, then finitely many `0.5` factors, then the residual), and at most
one of the two loops executes. -/
theorem atempo_chain_loops_finite_exclusive (s : ℚ) (h0 : 0 < s) :
    ∃ f1 f2 r, atempo_chain s = .ok (f1 ++ f2 ++ [round6 r]) ∧
      (∀ f ∈ f1, f = (2:ℚ)) ∧ (∀ f ∈ f2, f = (1/2:ℚ)) ∧
      (f1 = [] ∨ f2 = []) := by
  have hns : ¬ s ≤ 0 := not_le.mpr h0
  have hpos1 : 0 < (halveLoop s).2 := halveLoopSndPos h0
  refine ⟨(halveLoop s).1, (doubleLoop (halveLoop s).2 hpos1).1,
      (doubleLoop (halveLoop s).2 hpos1).2, ?_, halveLoop_mem s,
      doubleLoop_mem _ _, ?_⟩
  · unfold atempo_chain
    rw [dif_neg hns]
  · by_cases hgt : 2 < s
    · right
      have h1 : 1 < (halveLoop s).2 := (halveLoop_snd_of_gt hgt).1
      rw [doubleLoop_of_ge hpos1 (not_lt.mpr (by linarith))]
    · left
      rw [halveLoop_of_le hgt]

/-- Witness for `atempo_chain_loops_finite_exclusive` at speed 1/8. -/
theorem atempo_chain_loops_finite_exclusive_witness :
    (0:ℚ) < 1/8 ∧
    (∃ f1 f2 r, atempo_chain (1/8) = .ok (f1 ++ f2 ++ [round6 r]) ∧
      (∀ f ∈ f1, f = (2:ℚ)) ∧ (∀ f ∈ f2, f = (1/2:ℚ)) ∧
      (f1 = [] ∨ f2 = [])) :=
  ⟨by norm_num, atempo_chain_loops_finite_exclusive (1/8) (by norm_num)⟩

/-- C6: every speed less than or equal to 0 is rejected both by the guard
at the top of `main` and by `atempo_chain` itself, in both cases with the
message `Speed must be > 0` on standard error and the fixed exit code 1,
before any command is built. -/
theorem nonpositive_speed_dies (speed : ℚ) (h : speed ≤ 0) :
    atempo_chain speed = .error ("Speed must be > 0", 1) ∧
    main_speed_check speed = .error ("Speed must be > 0", 1) := by
  constructor
  · unfold atempo_chain
    rw [dif_pos h]
    rfl
  · unfold main_speed_check
    rw [if_pos h]
    rfl

/-- Witness for `nonpositive_speed_dies` at speed -1. -/
theorem nonpositive_speed_dies_witness :
    (-1:ℚ) ≤ 0 ∧
    (atempo_chain (-1) = .error ("Speed must be > 0", 1) ∧
     main_speed_check (-1) = .error ("Speed must be > 0", 1)) :=
  ⟨by norm_num, nonpositive_speed_dies (-1) (by norm_num)⟩

/-! ### Claim theorems: the command builder -/

theorem atempo_chain_ok (speed : ℚ) (h : 0 < speed) :
    atempo_chain speed = .ok ((halveLoop speed).1
      ++ (doubleLoop (halveLoop speed).2 (halveLoopSndPos h)).1
      ++ [round6 (doubleLoop (halveLoop speed).2 (halveLoopSndPos h)).2]) := by
  unfold atempo_chain
  rw [dif_neg (not_le.mpr h)]

/-- C2: the expected output duration returned by `build_ffmpeg_cmd` is
head + middle/speed + tail in partial mode (head = effective start,
middle = effective end - effective start, tail = probed duration -
effective end, a missing start defaulting to 0 and a missing end to the
probed duration), and probed duration / speed in whole-file mode. -/
theorem build_expected_duration (name : String) (dur speed : ℚ)
    (fpsN fpsF : ℤ) (na : Bool) (crf : ℤ) (preset : String)
    (hsp : 0 < speed) :
    (∀ start? end? : Option ℚ, (start?.isSome || end?.isSome) = true →
      start?.getD 0 < end?.getD dur →
      ∃ c, build_ffmpeg_cmd name dur speed fpsN fpsF na crf preset start? end?
        = .ok (c, start?.getD 0 + (end?.getD dur - start?.getD 0) / speed
            + (dur - end?.getD dur))) ∧
    (∃ c, build_ffmpeg_cmd name dur speed fpsN fpsF na crf preset none none
        = .ok (c, dur / speed)) := by
  constructor
  · intro start? end? hp hlt
    refine ⟨⟨.splitCmd (vfSegments (start?.getD 0) (end?.getD dur) speed fpsN fpsF)
        (if na then none
          else some (afSegments (start?.getD 0) (end?.getD dur) speed)),
        crf, preset⟩, ?_⟩
    unfold build_ffmpeg_cmd
    rw [if_pos hp, if_neg (not_le.mpr hlt)]
  · refine ⟨⟨.wholeCmd speed fpsF (if na then none
      else some ((halveLoop speed).1
        ++ (doubleLoop (halveLoop speed).2 (halveLoopSndPos hsp)).1
        ++ [round6 (doubleLoop (halveLoop speed).2 (halveLoopSndPos hsp)).2])),
      crf, preset⟩, ?_⟩
    cases na <;>
      simp [build_ffmpeg_cmd, atempo_chain_ok speed hsp, Except.map]

/-- Witness for `build_expected_duration`: start 10, end 20, speed 2 on a
30-second source gives expected duration 25. -/
theorem build_expected_duration_witness :
    (0:ℚ) < 2 ∧
    (∃ c, build_ffmpeg_cmd "in" 30 2 60 60 false 20 "medium"
        (some 10) (some 20) = .ok (c, 25)) := by
  refine ⟨by norm_num, ?_⟩
  have h := (build_expected_duration "in" 30 2 60 60 false 20 "medium"
      (by norm_num)).1 (some 10) (some 20) (by decide) (by decide)
  norm_num [Option.getD_some] at h
  exact h

/-- C3: in partial mode the video filter graph splits the stream into
three temporal branches, concatenated in order: a head covering
`[0, start]` with plain `PTS-STARTPTS` (no time scaling) at the normal
rate, a middle covering `[start, end]` with timestamps divided by `speed`
and rate-converted first to the fast rate then back to the normal rate,
and an unscaled tail from `end` on at the normal rate. -/
theorem build_video_three_way_split (name : String) (dur speed : ℚ)
    (fpsN fpsF : ℤ) (na : Bool) (crf : ℤ) (preset : String)
    (start? end? : Option ℚ) (hp : (start?.isSome || end?.isSome) = true)
    (hlt : start?.getD 0 < end?.getD dur) :
    ∃ af expected,
      build_ffmpeg_cmd name dur speed fpsN fpsF na crf preset start? end?
        = .ok (⟨.splitCmd
            [ ⟨0, some (start?.getD 0), none, [fpsN]⟩,
              ⟨start?.getD 0, some (end?.getD dur), some speed, [fpsF, fpsN]⟩,
              ⟨end?.getD dur, none, none, [fpsN]⟩ ] af, crf, preset⟩,
          expected) := by
  refine ⟨if na then none
      else some (afSegments (start?.getD 0) (end?.getD dur) speed),
    start?.getD 0 + (end?.getD dur - start?.getD 0) / speed
      + (dur - end?.getD dur), ?_⟩
  unfold build_ffmpeg_cmd
  rw [if_pos hp, if_neg (not_le.mpr hlt)]
  rfl

/-- Witness for `build_video_three_way_split` at start 10, end 20,
speed 2, normal rate 60, fast rate 120 on a 30-second source. -/
theorem build_video_three_way_split_witness :
    ∃ af expected,
      build_ffmpeg_cmd "in" 30 2 60 120 false 20 "medium"
          (some 10) (some 20)
        = .ok (⟨.splitCmd
            [ ⟨0, some 10, none, [60]⟩,
              ⟨10, some 20, some 2, [120, 60]⟩,
              ⟨20, none, none, [60]⟩ ] af, 20, "medium"⟩, expected) := by
  have h := build_video_three_way_split "in" 30 2 60 120 false 20 "medium"
      (some 10) (some 20) (by decide) (by decide)
  simpa using h

/-- C4: in partial mode with audio kept, the audio filter graph mirrors
the three-way split: a head `atrim` covering `[0, start]`, a generated
silence branch whose duration is the sped-up middle length
`(end - start) / speed`, and a tail `atrim` from `end` on, concatenated
in that order. -/
theorem build_audio_silent_middle (name : String) (dur speed : ℚ)
    (fpsN fpsF : ℤ) (crf : ℤ) (preset : String) (start? end? : Option ℚ)
    (hp : (start?.isSome || end?.isSome) = true)
    (hlt : start?.getD 0 < end?.getD dur) :
    ∃ expected,
      build_ffmpeg_cmd name dur speed fpsN fpsF false crf preset start? end?
        = .ok (⟨.splitCmd
            (vfSegments (start?.getD 0) (end?.getD dur) speed fpsN fpsF)
            (some [ .trimmed 0 (some (start?.getD 0)),
                    .silence ((end?.getD dur - start?.getD 0) / speed),
                    .trimmed (end?.getD dur) none ]), crf, preset⟩,
          expected) := by
  refine ⟨start?.getD 0 + (end?.getD dur - start?.getD 0) / speed
      + (dur - end?.getD dur), ?_⟩
  unfold build_ffmpeg_cmd
  rw [if_pos hp, if_neg (not_le.mpr hlt)]
  rfl

/-- Witness for `build_audio_silent_middle` at start 10, end 20, speed 2
on a 30-second source: the silence branch lasts (20-10)/2 = 5 seconds. -/
theorem build_audio_silent_middle_witness :
    ∃ expected,
      build_ffmpeg_cmd "in" 30 2 60 120 false 20 "medium"
          (some 10) (some 20)
        = .ok (⟨.splitCmd (vfSegments 10 20 2 60 120)
            (some [ .trimmed 0 (some 10), .silence 5, .trimmed 20 none ]),
            20, "medium"⟩, expected) := by
  have h := build_audio_silent_middle "in" 30 2 60 120 20 "medium"
      (some 10) (some 20) (by decide) (by decide)
  norm_num [Option.getD_some] at h
  exact h

/-- C5: in partial mode, whenever the effective end is at most the
effective start the request is rejected: `build_ffmpeg_cmd` returns the
error `--end must be greater than --start` (prefixed with the input file
name) with exit code 1 and no command. -/
theorem build_end_le_start_rejected (name : String) (dur speed : ℚ)
    (fpsN fpsF : ℤ) (na : Bool) (crf : ℤ) (preset : String)
    (start? end? : Option ℚ) (hp : (start?.isSome || end?.isSome) = true)
    (hle : end?.getD dur ≤ start?.getD 0) :
    build_ffmpeg_cmd name dur speed fpsN fpsF na crf preset start? end?
      = .error (name ++ ": --end must be greater than --start", 1) := by
  unfold build_ffmpeg_cmd
  rw [if_pos hp, if_pos hle]
  rfl

/-- Witness for `build_end_le_start_rejected` at start 20, end 10. -/
theorem build_end_le_start_rejected_witness :
    build_ffmpeg_cmd "clip.mp4" 30 2 60 60 false 20 "medium"
        (some 20) (some 10)
      = .error ("clip.mp4: --end must be greater than --start", 1) := by
  have h := build_end_le_start_rejected "clip.mp4" 30 2 60 60 false 20
      "medium" (some 20) (some 10) (by decide) (by decide)
  simpa using h

/-- C8: the builder never validates the end timestamp against the probed
duration: any partial request with effective end above effective start
succeeds, the expected duration always carries the tail term
`dur - end`, that term is negative whenever `end` exceeds the probed
duration, and in that case the expected duration undershoots even the
head plus sped-up middle alone. -/
theorem build_no_end_validation (name : String) (dur speed : ℚ)
    (fpsN fpsF : ℤ) (na : Bool) (crf : ℤ) (preset : String)
    (start? end? : Option ℚ) (hp : (start?.isSome || end?.isSome) = true)
    (hlt : start?.getD 0 < end?.getD dur) :
    (∃ c, build_ffmpeg_cmd name dur speed fpsN fpsF na crf preset start? end?
        = .ok (c, start?.getD 0 + (end?.getD dur - start?.getD 0) / speed
            + (dur - end?.getD dur))) ∧
    (dur < end?.getD dur → dur - end?.getD dur < 0) ∧
    (dur < end?.getD dur →
      start?.getD 0 + (end?.getD dur - start?.getD 0) / speed
          + (dur - end?.getD dur)
        < start?.getD 0 + (end?.getD dur - start?.getD 0) / speed) := by
  refine ⟨?_, fun h => by linarith, fun h => by linarith⟩
  refine ⟨⟨.splitCmd (vfSegments (start?.getD 0) (end?.getD dur) speed fpsN fpsF)
      (if na then none
        else some (afSegments (start?.getD 0) (end?.getD dur) speed)),
      crf, preset⟩, ?_⟩
  unfold build_ffmpeg_cmd
  rw [if_pos hp, if_neg (not_le.mpr hlt)]

/-- Witness for `build_no_end_validation`: end 40 on a 30-second source
succeeds and the returned expected duration is 10 + 15 + (30 - 40) = 15. -/
theorem build_no_end_validation_witness :
    ∃ c, build_ffmpeg_cmd "in" 30 2 60 60 true 20 "medium"
        (some 10) (some 40) = .ok (c, 15) := by
  have h := (build_no_end_validation "in" 30 2 60 60 true 20 "medium"
      (some 10) (some 40) (by decide) (by decide)).1
  norm_num [Option.getD_some] at h
  exact h

/-! ### Claim theorems: time parsing and formatting -/

theorem floatList_eq_none (parts : List Tok) :
    floatList parts = none ↔ Tok.bad ∈ parts := by
  induction parts with
  | nil => simp [floatList]
  | cons t ts ih =>
    cases t with
    | num q =>
      cases hts : floatList ts with
      | none =>
        simp [floatList, tokVal, hts, ih.mp hts]
      | some vs =>
        have hnb : Tok.bad ∉ ts := fun hbad => by
          rw [ih.mpr hbad] at hts
          exact Option.noConfusion hts
        simp [floatList, tokVal, hts, hnb]
    | bad => simp [floatList, tokVal]

theorem floatList_length {parts : List Tok} {vs : List ℚ}
    (h : floatList parts = some vs) : vs.length = parts.length := by
  induction parts generalizing vs with
  | nil =>
    simp [floatList] at h
    simp [← h]
  | cons t ts ih =>
    cases t with
    | num q =>
      simp only [floatList, tokVal] at h
      cases hts : floatList ts with
      | none => rw [hts] at h; simp at h
      | some vs' =>
        rw [hts] at h
        simp at h
        simp [← h, ih hts]
    | bad =>
      simp [floatList, tokVal] at h

/-- C7: `parse_hms` dies (message on standard error, fixed exit code 1)
exactly when the time string has more than three colon-separated
components or a component `float()` rejects; otherwise it returns `s` for
`SS`, `m*60 + s` for `MM:SS`, and `h*3600 + m*60 + s` for `HH:MM:SS`,
with no range or sign check on any component. -/
theorem parse_hms_spec (parts : List Tok) (hne : parts ≠ []) :
    (parse_hms parts = .error ("Invalid time format", 1) ↔
      3 < parts.length ∨ Tok.bad ∈ parts) ∧
    (∀ s : ℚ, parts = [.num s] → parse_hms parts = .ok s) ∧
    (∀ m s : ℚ, parts = [.num m, .num s] →
      parse_hms parts = .ok (m * 60 + s)) ∧
    (∀ h m s : ℚ, parts = [.num h, .num m, .num s] →
      parse_hms parts = .ok (h * 3600 + m * 60 + s)) := by
  refine ⟨⟨?_, ?_⟩, ?_, ?_, ?_⟩
  · intro herr
    by_cases hb : Tok.bad ∈ parts
    · exact Or.inr hb
    · left
      have hm : floatList parts ≠ none := fun hc =>
        hb ((floatList_eq_none parts).mp hc)
      obtain ⟨vs, hvs⟩ := Option.ne_none_iff_exists'.mp hm
      have hl := floatList_length hvs
      unfold parse_hms at herr
      rw [hvs] at herr
      rcases vs with _ | ⟨a, _ | ⟨b, _ | ⟨c, _ | ⟨d, rest⟩⟩⟩⟩
      · exact absurd (List.length_eq_zero.mp hl.symm) hne
      · simp at herr
      · simp at herr
      · simp at herr
      · simp at hl
        omega
  · intro h
    rcases h with hlen | hb
    · unfold parse_hms
      cases hm : floatList parts with
      | none => rfl
      | some vs =>
        have hl := floatList_length hm
        rcases vs with _ | ⟨a, _ | ⟨b, _ | ⟨c, _ | ⟨d, rest⟩⟩⟩⟩ <;>
          first
          | rfl
          | (exfalso; simp at hl; omega)
    · unfold parse_hms
      rw [(floatList_eq_none parts).mpr hb]
      rfl
  · intro s h
    subst h
    rfl
  · intro m s h
    subst h
    rfl
  · intro h m s hp
    subst hp
    rfl

/-- Witness for `parse_hms_spec` on the two-component input 1:02. -/
theorem parse_hms_spec_witness :
    ([Tok.num 1, Tok.num 2] ≠ ([] : List Tok)) ∧
    parse_hms [Tok.num 1, Tok.num 2] = .ok 62 := by
  refine ⟨by simp, ?_⟩
  have h := (parse_hms_spec [Tok.num 1, Tok.num 2] (by simp)).2.2.1 1 2 rfl
  norm_num at h
  exact h

theorem parse_fmt_general (n : ℕ) :
    parse_hms (if n / 3600 ≠ 0
        then [.num ((n / 3600 : ℕ) : ℚ), .num ((n % 3600 / 60 : ℕ) : ℚ),
              .num ((n % 3600 % 60 : ℕ) : ℚ)]
        else [.num ((n % 3600 / 60 : ℕ) : ℚ), .num ((n % 3600 % 60 : ℕ) : ℚ)])
      = .ok (n : ℚ) := by
  by_cases hh : n / 3600 ≠ 0
  · rw [if_pos hh]
    have key : n / 3600 * 3600 + n % 3600 / 60 * 60 + n % 3600 % 60 = n := by
      omega
    have hr : parse_hms [.num ((n / 3600 : ℕ) : ℚ),
          .num ((n % 3600 / 60 : ℕ) : ℚ), .num ((n % 3600 % 60 : ℕ) : ℚ)]
        = .ok (((n / 3600 : ℕ) : ℚ) * 3600 + ((n % 3600 / 60 : ℕ) : ℚ) * 60
            + ((n % 3600 % 60 : ℕ) : ℚ)) := rfl
    rw [hr]
    congr 1
    exact_mod_cast key
  · rw [if_neg hh]
    push_neg at hh
    have key : n % 3600 / 60 * 60 + n % 3600 % 60 = n := by omega
    have hr : parse_hms [.num ((n % 3600 / 60 : ℕ) : ℚ),
          .num ((n % 3600 % 60 : ℕ) : ℚ)]
        = .ok (((n % 3600 / 60 : ℕ) : ℚ) * 60 + ((n % 3600 % 60 : ℕ) : ℚ)) :=
      rfl
    rw [hr]
    congr 1
    exact_mod_cast key

theorem parse_fmt_eq (t : ℚ) :
    parse_hms (fmt_time t) = .ok (((max 0 (pyInt t)).toNat : ℚ)) := by
  simp only [fmt_time]
  exact parse_fmt_general ((max 0 (pyInt t)).toNat)

/-- C10: `fmt_time` and `parse_hms` round-trip on the integer part of a
duration: reparsing the formatted string yields `⌊t⌋` for `t ≥ 0` and 0
for `t < 0` (the formatter clamps negatives to zero), and the minute and
second fields emitted by `fmt_time` are always strictly below 60. -/
theorem fmt_parse_roundtrip (t : ℚ) :
    (∃ m s : ℕ, m < 60 ∧ s < 60 ∧
      (fmt_time t = [.num m, .num s] ∨
        ∃ h : ℕ, fmt_time t = [.num h, .num m, .num s])) ∧
    parse_hms (fmt_time t) = .ok (if 0 ≤ t then (⌊t⌋ : ℚ) else 0) := by
  constructor
  · refine ⟨(max 0 (pyInt t)).toNat % 3600 / 60,
      (max 0 (pyInt t)).toNat % 3600 % 60, by omega, by omega, ?_⟩
    simp only [fmt_time]
    by_cases hh : (max 0 (pyInt t)).toNat / 3600 ≠ 0
    · exact Or.inr ⟨(max 0 (pyInt t)).toNat / 3600, by rw [if_pos hh]⟩
    · exact Or.inl (by rw [if_neg hh])
  · rw [parse_fmt_eq t]
    congr 1
    by_cases h0 : 0 ≤ t
    · rw [if_pos h0]
      have hp : pyInt t = ⌊t⌋ := if_neg (not_lt.mpr h0)
      have hf : 0 ≤ ⌊t⌋ := Int.floor_nonneg.mpr h0
      rw [hp, max_eq_right hf]
      exact_mod_cast congrArg (fun z : ℤ => (z : ℚ)) (Int.toNat_of_nonneg hf)
    · rw [if_neg h0]
      push_neg at h0
      have hp : pyInt t = ⌈t⌉ := if_pos h0
      have hc : ⌈t⌉ ≤ 0 := Int.ceil_le.mpr (by exact_mod_cast le_of_lt h0)
      rw [hp, max_eq_left hc]
      norm_num
